import Mathlib

/-!
Verification of the report-generation orchestrator in `Laba3_zvit.py`:
the execution coordinator (`capture_output`), the output sanitizer
(`sanitize_output`), and the report assembler (`create_report` with its
helpers `get_python_files`, `read_file_content`, `add_formatted_code`,
`get_task_conclusions`).

The Python functions are shallowly embedded as pure Lean functions over
`List Char` / `String`.  Subprocess execution is abstracted by the
`RunOutcome` type: the result logic of `capture_output` is a pure function
of the child-process outcome (the input fixtures `TEST_INPUTS` /
`TEST_ARGS` only influence what the child does, which the environment's
`runOutcome` field models).  Python's `str.splitlines` is modelled on the
line boundaries `"\n"`, `"\r\n"` and `"\r"`, and `str.strip()` on the six
ASCII whitespace characters; the exotic unicode boundaries do not occur in
this repository's data.
-/

set_option linter.unusedVariables false

/-- ASCII whitespace, as stripped by Python's `str.strip()`. -/
def isPyWS (c : Char) : Bool :=
  c = ' ' || c = '\t' || c = '\n' || c = '\r' || c = '\x0b' || c = '\x0c'

/-- Split off the first line of a text: returns the first line and the rest
after the line boundary (`\n`, `\r\n` or `\r`), mirroring one step of
Python's `str.splitlines`. -/
def breakLine : List Char → List Char × List Char
  | [] => ([], [])
  | '\n' :: cs => ([], cs)
  | '\r' :: '\n' :: cs => ([], cs)
  | '\r' :: cs => ([], cs)
  | c :: cs => (c :: (breakLine cs).1, (breakLine cs).2)

/-- Accumulator worker for `pySplitlines`. -/
def pySplitlinesAux : List Char → List Char → List (List Char)
  | [], acc => if acc.isEmpty then [] else [acc.reverse]
  | '\n' :: cs, acc => acc.reverse :: pySplitlinesAux cs []
  | '\r' :: '\n' :: cs, acc => acc.reverse :: pySplitlinesAux cs []
  | '\r' :: cs, acc => acc.reverse :: pySplitlinesAux cs []
  | c :: cs, acc => pySplitlinesAux cs (c :: acc)

/-- Python `str.splitlines`: splits at `\n`, `\r\n`, `\r`; a trailing line
boundary does not produce a final empty line. -/
def pySplitlines (s : List Char) : List (List Char) :=
  pySplitlinesAux s []

/-- Accumulator worker for `pySplit`. -/
def pySplitAux (sep : Char) : List Char → List Char → List (List Char)
  | [], acc => [acc.reverse]
  | c :: cs, acc =>
    if c = sep then acc.reverse :: pySplitAux sep cs []
    else pySplitAux sep cs (c :: acc)

/-- Python `str.split(sep)` for a one-character separator: always returns at
least one (possibly empty) field, and a trailing separator produces a final
empty field. -/
def pySplit (sep : Char) (s : List Char) : List (List Char) :=
  pySplitAux sep s []

/-- Python `"\n".join`: interleave the given lines with `'\n'`. -/
def joinNL : List (List Char) → List Char
  | [] => []
  | [l] => l
  | l :: ls => l ++ '\n' :: joinNL ls

/-- Drop leading ASCII whitespace (Python `str.lstrip`). -/
def stripLeft (s : List Char) : List Char :=
  s.dropWhile isPyWS

/-- Drop trailing ASCII whitespace (Python `str.rstrip`). -/
def stripRight (s : List Char) : List Char :=
  (s.reverse.dropWhile isPyWS).reverse

/-- Python `str.strip()`: drop whitespace at both ends. -/
def pyStripChars (s : List Char) : List Char :=
  stripRight (stripLeft s)

/-- Python `str.strip()` on `String`. -/
def pyStrip (s : String) : String :=
  String.mk (pyStripChars s.data)

/-- The fixed denylist of marker substrings used by `sanitize_output`. -/
def markers : List String :=
  ["❌", "✗", "Помилка", "Error", "Traceback"]

/-- Python `any(token in line for token in markers)`. -/
def lineHasMarker (l : List Char) : Bool :=
  markers.any fun m => decide (m.data <:+: l)

/-- A line is kept by the sanitizer iff it contains none of the markers. -/
def keepLine (l : List Char) : Bool :=
  ! lineHasMarker l

/-- Core of `sanitize_output`: split into lines, drop marker lines, rejoin
with `'\n'`, then `str.strip()` the result. -/
def sanitizeChars (s : List Char) : List Char :=
  pyStripChars (joinNL ((pySplitlines s).filter keepLine))

/-- `sanitize_output` from `Laba3_zvit.py` (lines 138-147): removes
diagnostic lines from captured output and strips the rejoined text. -/
def sanitize_output (s : String) : String :=
  if s.data.isEmpty then "" else String.mk (sanitizeChars s.data)

/-- Outcome of launching one exercise as a subprocess: it either completed
with an exit status and captured standard output, hit the 10-second
timeout (`subprocess.TimeoutExpired`), or failed to launch at all (any
other exception). -/
inductive RunOutcome where
  | completed (returncode : Int) (stdout : String)
  | timeoutExpired
  | launchFailure (msg : String)
deriving DecidableEq

/-- `capture_output` from `Laba3_zvit.py` (lines 150-177): on exit status 0
it returns the captured stdout passed through `str.strip()`; on a non-zero
status, a timeout, or a launch failure it returns `None`.  The Python
function catches every exception, so it is total. -/
def capture_output (r : RunOutcome) : Option String :=
  match r with
  | .completed returncode stdout =>
      if returncode = 0 then some (pyStrip stdout) else none
  | .timeoutExpired => none
  | .launchFailure _ => none

/-- `read_file_content` from `Laba3_zvit.py` (lines 180-186): the read
either yields the file content or raises, and any exception is turned into
a placeholder string. -/
def read_file_content (r : Except String String) : String :=
  match r with
  | .ok content => content
  | .error e => "Помилка читання файлу: " ++ e

/-- Paragraph text emitted for one code line by `add_formatted_code`:
Python `line if line.strip() else ""`. -/
def paraText (l : List Char) : String :=
  if (pyStripChars l).isEmpty then "" else String.mk l

/-- `add_formatted_code` from `Laba3_zvit.py` (lines 189-202), with the
document abstracted: returns the list of emitted code paragraphs (one per
line of `code_text.split('\n')`, capped at `max_lines`) and the optional
omission notice paragraph. -/
def add_formatted_code (code_text : String) (max_lines : Nat) :
    List String × Option String :=
  let lines := pySplit '\n' code_text.data
  ((lines.take max_lines).map paraText,
   if max_lines < lines.length then
     some ("... (залишилось " ++ toString (lines.length - max_lines) ++ " рядків)")
   else none)

/-- Static metadata of one exercise in `TASK_DESCRIPTIONS`. -/
structure TaskInfo where
  title : String
  description : String
  topic : String
deriving DecidableEq

/-- The `TASK_DESCRIPTIONS` table from `Laba3_zvit.py` (lines 30-106). -/
def TASK_DESCRIPTIONS : List (String × TaskInfo) :=
  [("riven1zada4a1.py",
    ⟨"Завдання 1 (Рівень 1): Підрахунок унікальних символів",
     "Розробка функцій для підрахунку кількості унікальних символів у рядку з використанням словників та NumPy.",
     "Функції, списки, словники"⟩),
   ("riven1zada4a2.py",
    ⟨"Завдання 2 (Рівень 1): Обернення списку",
     "Написання функцій для обернення списку без вбудованих методів та порівняння продуктивності.",
     "Функції, списки"⟩),
   ("riven1zada4a3.py",
    ⟨"Завдання 3 (Рівень 1): Пошук максимуму",
     "Розробка функцій для пошуку максимального елементу списку з різними підходами.",
     "Функції, цикли"⟩),
   ("riven1zada4a4.py",
    ⟨"Завдання 4 (Рівень 1): Сортування списку",
     "Реалізація простого алгоритму сортування (bubble sort) з нуля.",
     "Функції, алгоритми"⟩),
   ("riven1zada4a5.py",
    ⟨"Завдання 5 (Рівень 1): Фільтрація даних",
     "Написання функцій для фільтрації списку за заданим критерієм.",
     "Функції, лямбда-вирази"⟩),
   ("riven2zada4a1.py",
    ⟨"Завдання 1 (Рівень 2): Робота з зовнішніми модулями",
     "Використання модулів random, math та string для генерації та обробки даних.",
     "Модулі, вбудовані функції"⟩),
   ("riven2zada4a2.py",
    ⟨"Завдання 2 (Рівень 2): Аналіз текстового файлу",
     "Читання файлу, підрахунок слів, символів та статистичний аналіз тексту.",
     "Файли, обробка тексту"⟩),
   ("riven2zada4a3.py",
    ⟨"Завдання 3 (Рівень 2): Запис результатів у файл",
     "Запис результатів обробки даних у текстовий файл з форматуванням.",
     "Файли, форматування"⟩),
   ("riven2zada4a4.py",
    ⟨"Завдання 4 (Рівень 2): CSV обробка",
     "Робота з CSV файлами: читання, обробка та запис структурованих даних.",
     "Файли, модуль csv"⟩),
   ("riven2zada4a5.py",
    ⟨"Завдання 5 (Рівень 2): JSON та конфігурація",
     "Робота з JSON форматом для збереження та завантаження конфігурацій.",
     "Файли, JSON, словники"⟩),
   ("riven3zada4a1.py",
    ⟨"Завдання 1 (Рівень 3): Рекурсивні функції",
     "Розробка рекурсивних функцій та розуміння принципу рекурсії.",
     "Рекурсія, стек вызовів"⟩),
   ("riven3zada4a2.py",
    ⟨"Завдання 2 (Рівень 3): Складні структури даних",
     "Робота з вложеними словниками та списками для представлення складних структур.",
     "Структури даних, модулі"⟩),
   ("riven3zada4a3.py",
    ⟨"Завдання 3 (Рівень 3): Обробка помилок",
     "Розробка надійних функцій з обробкою винятків та валідацією даних.",
     "Винятки, обробка помилок"⟩),
   ("riven3zada4a4.py",
    ⟨"Завдання 4 (Рівень 3): Великі файли",
     "Ефективна робота з великими файлами з використанням буферизації та потоків.",
     "Файли, оптимізація"⟩),
   ("riven3zada4a5.py",
    ⟨"Завдання 5 (Рівень 3): Інтеграція всіх концепцій",
     "Комплексний проект, що поєднує функції, модулі, файли та обробку помилок.",
     "Проектування, архітектура"⟩)]

/-- `get_task_conclusions` from `Laba3_zvit.py` (lines 205-224). -/
def get_task_conclusions (task_file : String) : String :=
  (([("riven1zada4a1.py", "Опановано роботу з функціями для підрахунку унікальних елементів."),
     ("riven1zada4a2.py", "Закріплено навички написання функцій для маніпуляції зі списками."),
     ("riven1zada4a3.py", "Відпрацьовано пошук екстремумів у списках за допомогою функцій."),
     ("riven1zada4a4.py", "Реалізовано алгоритм сортування, що демонструє розуміння базових принципів."),
     ("riven1zada4a5.py", "Вивчено фільтрацію даних за критеріями з використанням функцій."),
     ("riven2zada4a1.py", "Опановано імпорт та використання зовнішніх модулів Python."),
     ("riven2zada4a2.py", "Закріплено навички читання та аналізу текстових файлів."),
     ("riven2zada4a3.py", "Вивчено запис результатів у файли з форматуванням."),
     ("riven2zada4a4.py", "Опановано роботу з CSV форматом для структурованих даних."),
     ("riven2zada4a5.py", "Закріплено використання JSON для конфігурацій та збереження даних."),
     ("riven3zada4a1.py", "Глибоко вивчено принципи рекурсії та їх практичне застосування."),
     ("riven3zada4a2.py", "Опановано роботу з вложеними структурами даних."),
     ("riven3zada4a3.py", "Закріплено надійну розробку з обробкою винятків."),
     ("riven3zada4a4.py", "Вивчено оптимізацію при роботі з великими файлами."),
     ("riven3zada4a5.py", "Успішно зібрано всі концепції курсу в єдиний проект.")]
    : List (String × String)).lookup task_file).getD "Завдання виконано успішно."

/-- State of the world the orchestrator runs in: the file names present in
the script's directory, the behaviour of each exercise when launched as a
subprocess (with its canned fixtures), and the result of reading each
file's source text. -/
structure Env where
  files : List String
  runOutcome : String → RunOutcome
  readResult : String → Except String String

/-- The filter applied during discovery: `glob("*.py")` plus the exclusion
of the orchestrator's own file. -/
def isExerciseFile (n : String) : Bool :=
  ".py".data.isSuffixOf n.data && n != "Laba3_zvit.py"

/-- Insert into a ≤-sorted list of names (Python `sorted` is a stable
comparison sort; by-name insertion reproduces it for string keys). -/
def pyOrdInsert (x : String) : List String → List String
  | [] => [x]
  | y :: ys => if x.data < y.data then x :: y :: ys else y :: pyOrdInsert x ys

/-- Sort file names ascending, as Python `sorted(files, key=lambda x: x.name)`. -/
def pySortByName : List String → List String
  | [] => []
  | x :: xs => pyOrdInsert x (pySortByName xs)

/-- `get_python_files` from `Laba3_zvit.py` (lines 129-135): every `.py`
file except `Laba3_zvit.py`, sorted by name. -/
def get_python_files (env : Env) : List String :=
  pySortByName (env.files.filter isExerciseFile)

/-- The value recorded in `task_results` for one exercise, from the
result-collection loop of `create_report` (lines 236-248). -/
def taskEntry (o : Option String) : String :=
  match o with
  | none => "(Без виводу)"
  | some output =>
      if sanitize_output output = "" then "(Без виводу)" else sanitize_output output

/-- The `task_results` mapping built by the result-collection loop of
`create_report`, as an association list in discovery order. -/
def collectResults (env : Env) : List (String × String) :=
  (get_python_files env).map fun f => (f, taskEntry (capture_output (env.runOutcome f)))

/-- Rendering of the "Результат виконання" block of one section. -/
inductive OutputRendering where
  | notExecuted
  | executed (shownLines : List String)
deriving DecidableEq

/-- The output block of a section, from `create_report` lines 362-382:
a missing entry renders the "not executed" paragraph, an entry renders one
paragraph per non-blank line of the recorded output. -/
def renderOutput (o : Option String) : OutputRendering :=
  match o with
  | none => .notExecuted
  | some output =>
      .executed (((pySplit '\n' output.data).filter
        fun ln => !(pyStripChars ln).isEmpty).map String.mk)

/-- Content of one per-exercise section of the report (document styling,
fonts and page breaks are presentation, not content). -/
structure ReportSection where
  name : String
  heading : String
  overview : String
  codeParagraphs : List String
  codeNotice : Option String
  outputRendering : OutputRendering
  conclusion : String
deriving DecidableEq

/-- One iteration of the section-writing loop of `create_report`
(lines 333-391) for file `f` with 1-based index `num`. -/
def mkSection (env : Env) (results : List (String × String)) (num : Nat)
    (f : String) : ReportSection :=
  let fc := add_formatted_code (read_file_content (env.readResult f)) 80
  match TASK_DESCRIPTIONS.lookup f with
  | some ti =>
      { name := f
        heading := toString num ++ ". " ++ ti.title
        overview := ti.description ++ "\nТема: " ++ ti.topic
        codeParagraphs := fc.1
        codeNotice := fc.2
        outputRendering := renderOutput (results.lookup f)
        conclusion := get_task_conclusions f }
  | none =>
      { name := f
        heading := toString num ++ ". " ++ f
        overview := "Виконання завдання" ++ "\nТема: " ++ "Python"
        codeParagraphs := fc.1
        codeNotice := fc.2
        outputRendering := renderOutput (results.lookup f)
        conclusion := get_task_conclusions f }

/-- The ordered list of per-exercise sections assembled by
`create_report`: one section per discovered file, numbered from 1. -/
def create_report_sections (env : Env) : List ReportSection :=
  (List.enumFrom 1 (get_python_files env)).map fun p =>
    mkSection env (collectResults env) p.1 p.2

/-- Coordinator result as the claim literally states it (C1): captured
standard output with only its trailing whitespace trimmed on success. -/
def coordinatorResultClaimed : RunOutcome → Option String
  | .completed returncode stdout =>
      if returncode = 0 then some (String.mk (stripRight stdout.data)) else none
  | .timeoutExpired => none
  | .launchFailure _ => none

/-- Coordinator result as the spec sentence reads once amended: on zero
exit status the captured standard output with leading and trailing
whitespace trimmed, otherwise the explicit no-result signal. -/
def coordinatorResultSpec : RunOutcome → Option String
  | .completed status out =>
      if status = 0 then some (String.mk (pyStripChars out.data)) else none
  | .timeoutExpired => none
  | .launchFailure _ => none

/-- A line consisting of whitespace only (a "blank line"). -/
def isBlankLine (l : List Char) : Bool :=
  l.all isPyWS

/-- Remove blank lines from both ends of a list of lines. -/
def trimBlankLines (ls : List (List Char)) : List (List Char) :=
  ((ls.dropWhile isBlankLine).reverse.dropWhile isBlankLine).reverse

/-- Sanitizer as the claim literally states it (C2): split, discard marker
lines, rejoin, and trim leading/trailing blank lines (only) from the
result. -/
def sanitizeSpecClaimed (s : String) : String :=
  String.mk (joinNL (trimBlankLines ((pySplitlines s.data).filter keepLine)))

/-- Sanitizer as the spec sentence reads once amended: split into lines,
discard every line containing one of the five marker substrings, rejoin
with newlines, and strip leading and trailing whitespace from the result
(which in particular removes leading/trailing blank lines). -/
def sanitizeSpec (s : String) : String :=
  String.mk (pyStripChars (joinNL ((pySplitlines s.data).filter
    fun l => ! markers.any fun m => decide (m.data <:+: l))))

/-- Concrete directory state used by the witnesses: one exercise whose
output is pure diagnostics, one healthy exercise, a non-Python file and
the orchestrator itself; every source read fails. -/
def demoEnv1 : Env :=
  { files := ["b.py", "a.py", "Laba3_zvit.py", "readme.txt"]
    runOutcome := fun f =>
      if f = "a.py" then RunOutcome.completed 0 "Error: bad"
      else RunOutcome.completed 0 "hi"
    readResult := fun _ => Except.error "boom" }

/-- Concrete directory state with one timed-out exercise. -/
def demoEnv2 : Env :=
  { files := ["b.py", "a.py"]
    runOutcome := fun f =>
      if f = "a.py" then RunOutcome.timeoutExpired
      else RunOutcome.completed 0 "hi"
    readResult := fun _ => Except.ok "print(1)" }

/-- The first section of the report assembled over `demoEnv1`. -/
def demoSec1 : ReportSection :=
  mkSection demoEnv1 (collectResults demoEnv1) 1 "a.py"

/-! ### Unfolding lemmas for the line splitter -/

/-- A piece of text containing no line boundary characters. -/
def nlFree (l : List Char) : Prop :=
  '\n' ∉ l ∧ '\r' ∉ l

theorem breakLine_nil : breakLine [] = ([], []) := rfl

theorem breakLine_newline (cs : List Char) : breakLine ('\n' :: cs) = ([], cs) := rfl

theorem breakLine_cr_newline (cs : List Char) :
    breakLine ('\r' :: '\n' :: cs) = ([], cs) := rfl

theorem breakLine_cr_nil : breakLine ['\r'] = ([], []) := rfl

theorem breakLine_cr (b : Char) (cs : List Char) (hb : b ≠ '\n') :
    breakLine ('\r' :: b :: cs) = ([], b :: cs) := by
  simp [breakLine, hb]

theorem breakLine_other (c : Char) (cs : List Char) (h1 : c ≠ '\n') (h2 : c ≠ '\r') :
    breakLine (c :: cs) = (c :: (breakLine cs).1, (breakLine cs).2) := by
  simp [breakLine, h1, h2]

theorem aux_nil (acc : List Char) :
    pySplitlinesAux [] acc = if acc.isEmpty then [] else [acc.reverse] := rfl

theorem aux_newline (cs acc : List Char) :
    pySplitlinesAux ('\n' :: cs) acc = acc.reverse :: pySplitlinesAux cs [] := rfl

theorem aux_cr_newline (cs acc : List Char) :
    pySplitlinesAux ('\r' :: '\n' :: cs) acc = acc.reverse :: pySplitlinesAux cs [] := rfl

theorem aux_cr_nil (acc : List Char) :
    pySplitlinesAux ['\r'] acc = acc.reverse :: pySplitlinesAux [] [] := rfl

theorem aux_cr (b : Char) (cs acc : List Char) (hb : b ≠ '\n') :
    pySplitlinesAux ('\r' :: b :: cs) acc = acc.reverse :: pySplitlinesAux (b :: cs) [] := by
  simp [pySplitlinesAux, hb]

theorem aux_other (c : Char) (cs acc : List Char) (h1 : c ≠ '\n') (h2 : c ≠ '\r') :
    pySplitlinesAux (c :: cs) acc = pySplitlinesAux cs (c :: acc) := by
  simp [pySplitlinesAux, h1, h2]

/-! ### Structure of `breakLine` -/

theorem breakLine_snd_length_le (cs : List Char) :
    (breakLine cs).2.length ≤ cs.length := by
  induction cs using breakLine.induct with
  | case1 => simp [breakLine_nil]
  | case2 cs => simp [breakLine_newline]
  | case3 cs => simp [breakLine_cr_newline]; omega
  | case4 cs h =>
    match cs, h with
    | [], _ => simp [breakLine_cr_nil]
    | b :: cs', h =>
      have hb : b ≠ '\n' := fun e => h cs' (by rw [e])
      simp [breakLine_cr b cs' hb]
  | case5 c cs h1 h2 h3 ih =>
    simp only [breakLine_other c cs h1 h3]
    simpa using Nat.le_succ_of_le ih

theorem breakLine_snd_lt (cs : List Char) (h : cs ≠ []) :
    (breakLine cs).2.length < cs.length := by
  match cs, h with
  | '\n' :: cs', _ => simp [breakLine_newline]
  | '\r' :: '\n' :: cs', _ => simp [breakLine_cr_newline]; omega
  | ['\r'], _ => simp [breakLine_cr_nil]
  | '\r' :: b :: cs', _ =>
    by_cases hb : b = '\n'
    · subst hb; simp [breakLine_cr_newline]; omega
    · simp [breakLine_cr b cs' hb]
  | c :: cs', _ =>
    by_cases h1 : c = '\n'
    · subst h1; simp [breakLine_newline]
    · by_cases h2 : c = '\r'
      · subst h2
        match cs' with
        | [] => simp [breakLine_cr_nil]
        | b :: cs'' =>
          by_cases hb : b = '\n'
          · subst hb; simp [breakLine_cr_newline]; omega
          · simp [breakLine_cr b cs'' hb]
      · simp only [breakLine_other c cs' h1 h2]
        have := breakLine_snd_length_le cs'
        simp; omega

theorem breakLine_struct (cs : List Char) :
    ∃ sep, cs = (breakLine cs).1 ++ sep ++ (breakLine cs).2 ∧
      ((sep = [] ∧ (breakLine cs).2 = []) ∨ sep = ['\n'] ∨ sep = ['\r'] ∨ sep = ['\r', '\n']) := by
  induction cs using breakLine.induct with
  | case1 => exact ⟨[], by simp [breakLine_nil]⟩
  | case2 cs => exact ⟨['\n'], by simp [breakLine_newline]⟩
  | case3 cs => exact ⟨['\r', '\n'], by simp [breakLine_cr_newline]⟩
  | case4 cs h =>
    match cs, h with
    | [], _ => exact ⟨['\r'], by simp [breakLine_cr_nil]⟩
    | b :: cs', h =>
      have hb : b ≠ '\n' := fun e => h cs' (by rw [e])
      exact ⟨['\r'], by simp [breakLine_cr b cs' hb]⟩
  | case5 c cs h1 h2 h3 ih =>
    obtain ⟨sep, hsep, hcase⟩ := ih
    refine ⟨sep, ?_, ?_⟩ <;> simp only [breakLine_other c cs h1 h3]
    · simpa using hsep
    · exact hcase

theorem breakLine_fst_nlFree (cs : List Char) : nlFree (breakLine cs).1 := by
  induction cs using breakLine.induct with
  | case1 => simp [breakLine_nil, nlFree]
  | case2 cs => simp [breakLine_newline, nlFree]
  | case3 cs => simp [breakLine_cr_newline, nlFree]
  | case4 cs h =>
    match cs, h with
    | [], _ => simp [breakLine_cr_nil, nlFree]
    | b :: cs', h =>
      have hb : b ≠ '\n' := fun e => h cs' (by rw [e])
      simp [breakLine_cr b cs' hb, nlFree]
  | case5 c cs h1 h2 h3 ih =>
    simp only [breakLine_other c cs h1 h3]
    exact ⟨by simp only [List.mem_cons, not_or]; exact ⟨fun e => h1 e.symm, ih.1⟩,
           by simp only [List.mem_cons, not_or]; exact ⟨fun e => h3 e.symm, ih.2⟩⟩

theorem breakLine_of_nlFree (cs : List Char) (h : nlFree cs) :
    breakLine cs = (cs, []) := by
  induction cs with
  | nil => rfl
  | cons c cs ih =>
    have h1 : c ≠ '\n' := fun e => h.1 (by simp [e])
    have h2 : c ≠ '\r' := fun e => h.2 (by simp [e])
    have ih' := ih ⟨fun m => h.1 (List.mem_cons_of_mem c m),
                    fun m => h.2 (List.mem_cons_of_mem c m)⟩
    simp [breakLine_other c cs h1 h2, ih']

theorem breakLine_append_newline (a r : List Char) (h : nlFree a) :
    breakLine (a ++ '\n' :: r) = (a, r) := by
  induction a with
  | nil => simp [breakLine_newline]
  | cons c a' ih =>
    have h1 : c ≠ '\n' := fun e => h.1 (by simp [e])
    have h2 : c ≠ '\r' := fun e => h.2 (by simp [e])
    have ih' := ih ⟨fun m => h.1 (List.mem_cons_of_mem c m),
                    fun m => h.2 (List.mem_cons_of_mem c m)⟩
    simp [List.cons_append, breakLine_other c (a' ++ '\n' :: r) h1 h2, ih']

/-! ### Structure of `pySplitlines` -/

theorem pySplitlines_nil : pySplitlines [] = [] := rfl

theorem pySplitlinesAux_general (cs acc : List Char) :
    pySplitlinesAux cs acc =
      if cs = [] ∧ acc = [] then []
      else (acc.reverse ++ (breakLine cs).1) :: pySplitlinesAux (breakLine cs).2 [] := by
  induction cs, acc using pySplitlinesAux.induct with
  | case1 acc hacc =>
    have : acc = [] := by simpa [List.isEmpty_iff] using hacc
    subst this; rfl
  | case2 acc hacc =>
    have hne : acc ≠ [] := by simpa [List.isEmpty_iff] using hacc
    simp [aux_nil, breakLine_nil, hne, List.isEmpty_iff]
  | case3 cs acc ih => simp [aux_newline, breakLine_newline]
  | case4 cs acc ih => simp [aux_cr_newline, breakLine_cr_newline]
  | case5 cs acc h ih =>
    match cs, h with
    | [], _ => simp [aux_cr_nil, breakLine_cr_nil, aux_nil]
    | b :: cs', h =>
      have hb : b ≠ '\n' := fun e => h cs' (by rw [e])
      simp [aux_cr b cs' _ hb, breakLine_cr b cs' hb]
  | case6 c cs acc h1 h2 h3 ih =>
    rw [aux_other c cs acc h1 h3, ih, breakLine_other c cs h1 h3]
    by_cases hcs : cs = [] ∧ c :: acc = []
    · exact absurd hcs.2 (by simp)
    · simp only [hcs, if_false, if_neg (by simp : ¬(c :: cs = [] ∧ acc = []))]
      simp

theorem pySplitlines_cons (c : Char) (cs : List Char) :
    pySplitlines (c :: cs) =
      (breakLine (c :: cs)).1 :: pySplitlines (breakLine (c :: cs)).2 := by
  unfold pySplitlines
  rw [pySplitlinesAux_general]
  simp

theorem pySplitlines_ne_nil (cs : List Char) (h : cs ≠ []) : pySplitlines cs ≠ [] := by
  cases cs with
  | nil => exact absurd rfl h
  | cons c cs' => simp [pySplitlines_cons]

theorem mem_pySplitlines_nlFree (cs : List Char) : ∀ l ∈ pySplitlines cs, nlFree l := by
  cases cs with
  | nil => simp [pySplitlines_nil]
  | cons c cs' =>
    intro l hl
    rw [pySplitlines_cons] at hl
    rcases List.mem_cons.mp hl with h | h
    · exact h ▸ breakLine_fst_nlFree _
    · exact mem_pySplitlines_nlFree (breakLine (c :: cs')).2 l h
termination_by cs.length
decreasing_by exact breakLine_snd_lt _ (by simp)

theorem pySplitlines_of_nlFree (cs : List Char) (h : nlFree cs) :
    pySplitlines cs = if cs.isEmpty then [] else [cs] := by
  cases cs with
  | nil => rfl
  | cons c cs' =>
    rw [pySplitlines_cons, breakLine_of_nlFree _ h]
    simp [pySplitlines_nil]

theorem pySplitlines_append_newline (a t : List Char) (h : nlFree a) :
    pySplitlines (a ++ '\n' :: t) = a :: pySplitlines t := by
  cases a with
  | nil => simp [pySplitlines_cons, breakLine_newline]
  | cons c a' =>
    rw [show (c :: a') ++ '\n' :: t = c :: (a' ++ '\n' :: t) from rfl, pySplitlines_cons,
        show c :: (a' ++ '\n' :: t) = (c :: a') ++ '\n' :: t from rfl,
        breakLine_append_newline (c :: a') t h]

/-! ### Joining lines -/

theorem joinNL_cons (a : List Char) (M : List (List Char)) (h : M ≠ []) :
    joinNL (a :: M) = a ++ '\n' :: joinNL M := by
  cases M with
  | nil => exact absurd rfl h
  | cons b M' => rfl

theorem mem_joinNL_pySplitlines (L : List (List Char)) (hL : ∀ x ∈ L, nlFree x) :
    ∀ l ∈ pySplitlines (joinNL L), l ∈ L := by
  induction L with
  | nil => simp [joinNL, pySplitlines_nil]
  | cons a M ih =>
    intro l hl
    cases M with
    | nil =>
      have ha : nlFree a := hL a (by simp)
      rw [show joinNL [a] = a from rfl, pySplitlines_of_nlFree a ha] at hl
      by_cases he : a.isEmpty = true
      · rw [if_pos he] at hl
        exact absurd hl (by simp)
      · rw [if_neg he] at hl
        simp [List.mem_singleton.mp hl]
    | cons b M' =>
      rw [joinNL_cons a (b :: M') (by simp),
          pySplitlines_append_newline _ _ (hL a (by simp))] at hl
      rcases List.mem_cons.mp hl with h | h
      · simp [h]
      · exact List.mem_cons_of_mem _ (ih (fun x hx => hL x (List.mem_cons_of_mem _ hx)) l h)

theorem cr_not_mem_joinNL (L : List (List Char)) (hL : ∀ x ∈ L, nlFree x) :
    '\r' ∉ joinNL L := by
  induction L with
  | nil => simp [joinNL]
  | cons a M ih =>
    cases M with
    | nil => exact (hL a (by simp)).2
    | cons b M' =>
      rw [joinNL_cons a (b :: M') (by simp)]
      intro hmem
      rcases List.mem_append.mp hmem with h | h
      · exact (hL a (by simp)).2 h
      · rcases List.mem_cons.mp h with h' | h'
        · exact absurd h' (by decide)
        · exact ih (fun x hx => hL x (List.mem_cons_of_mem _ hx)) h'

/-! ### Lines survive as infixes when text grows at either end -/

theorem mem_pySplitlines_cons_lift (c : Char) (cs l : List Char)
    (h : l ∈ pySplitlines cs) :
    ∃ x, x ∈ pySplitlines (c :: cs) ∧ l <:+: x := by
  by_cases h1 : c = '\n'
  · subst h1
    refine ⟨l, ?_, List.infix_refl l⟩
    rw [pySplitlines_cons, breakLine_newline]
    exact List.mem_cons_of_mem _ h
  · by_cases h2 : c = '\r'
    · subst h2
      cases cs with
      | nil => exact absurd h (by simp [pySplitlines_nil])
      | cons b cs' =>
        by_cases hb : b = '\n'
        · subst hb
          rw [pySplitlines_cons, breakLine_newline] at h
          refine ⟨l, ?_, List.infix_refl l⟩
          rw [pySplitlines_cons, breakLine_cr_newline]
          exact h
        · refine ⟨l, ?_, List.infix_refl l⟩
          rw [pySplitlines_cons, breakLine_cr b cs' hb]
          exact List.mem_cons_of_mem _ h
    · cases cs with
      | nil => exact absurd h (by simp [pySplitlines_nil])
      | cons d cs' =>
        rw [pySplitlines_cons] at h
        rcases List.mem_cons.mp h with he | he
        · subst he
          refine ⟨c :: (breakLine (d :: cs')).1, ?_, ⟨[c], [], by simp⟩⟩
          rw [pySplitlines_cons, breakLine_other c (d :: cs') h1 h2]
          simp
        · refine ⟨l, ?_, List.infix_refl l⟩
          rw [pySplitlines_cons, breakLine_other c (d :: cs') h1 h2]
          exact List.mem_cons_of_mem _ he

theorem breakLine_append_char (v : List Char) (c : Char) :
    breakLine (v ++ [c]) = ((breakLine v).1, (breakLine v).2 ++ [c])
    ∨ breakLine (v ++ [c]) = breakLine v
    ∨ (breakLine (v ++ [c]) = ((breakLine v).1 ++ [c], []) ∧ (breakLine v).2 = []) := by
  induction v using breakLine.induct with
  | case1 =>
    by_cases h1 : c = '\n'
    · subst h1; right; left; simp [breakLine_newline, breakLine_nil]
    · by_cases h2 : c = '\r'
      · subst h2; right; left; simp [breakLine_cr_nil, breakLine_nil]
      · right; right
        refine ⟨?_, rfl⟩
        simp [breakLine_other c [] h1 h2, breakLine_nil]
  | case2 cs =>
    left
    simp [breakLine_newline]
  | case3 cs =>
    left
    rw [show ('\r' :: '\n' :: cs) ++ [c] = '\r' :: '\n' :: (cs ++ [c]) from rfl,
        breakLine_cr_newline, breakLine_cr_newline]
  | case4 cs h =>
    match cs, h with
    | [], _ =>
      by_cases hc : c = '\n'
      · subst hc; right; left
        rw [show ['\r'] ++ ['\n'] = '\r' :: '\n' :: ([] : List Char) from rfl,
            breakLine_cr_newline, breakLine_cr_nil]
      · left
        rw [show ['\r'] ++ [c] = '\r' :: c :: ([] : List Char) from rfl,
            breakLine_cr c [] hc, breakLine_cr_nil]
        simp
    | b :: cs', h =>
      have hb : b ≠ '\n' := fun e => h cs' (by rw [e])
      left
      rw [show ('\r' :: b :: cs') ++ [c] = '\r' :: b :: (cs' ++ [c]) from rfl,
          breakLine_cr b (cs' ++ [c]) hb, breakLine_cr b cs' hb]
      simp
  | case5 a cs h1 h2 h3 ih =>
    rw [show (a :: cs) ++ [c] = a :: (cs ++ [c]) from rfl,
        breakLine_other a (cs ++ [c]) h1 h3, breakLine_other a cs h1 h3]
    rcases ih with h | h | ⟨h, hb2⟩
    · left; simp [h]
    · right; left; simp [h]
    · right; right
      exact ⟨by simp [h], by simp [hb2]⟩

theorem mem_pySplitlines_append_char (v : List Char) (c : Char) (l : List Char)
    (h : l ∈ pySplitlines v) :
    ∃ x, x ∈ pySplitlines (v ++ [c]) ∧ l <:+: x := by
  cases v with
  | nil => exact absurd h (by simp [pySplitlines_nil])
  | cons d v' =>
    rw [pySplitlines_cons] at h
    have hsplit : pySplitlines ((d :: v') ++ [c]) =
        (breakLine ((d :: v') ++ [c])).1 :: pySplitlines (breakLine ((d :: v') ++ [c])).2 := by
      rw [show (d :: v') ++ [c] = d :: (v' ++ [c]) from rfl, pySplitlines_cons]
    rcases breakLine_append_char (d :: v') c with hA | hA | ⟨hA, hB⟩
    · rcases List.mem_cons.mp h with he | he
      · refine ⟨(breakLine (d :: v')).1, ?_, he ▸ List.infix_refl l⟩
        rw [hsplit, hA]
        simp
      · obtain ⟨x, hx, hlx⟩ :=
          mem_pySplitlines_append_char (breakLine (d :: v')).2 c l he
        refine ⟨x, ?_, hlx⟩
        rw [hsplit, hA]
        exact List.mem_cons_of_mem _ hx
    · refine ⟨l, ?_, List.infix_refl l⟩
      rw [hsplit, hA]
      exact h
    · rw [hB, pySplitlines_nil] at h
      have he : l = (breakLine (d :: v')).1 := by simpa using h
      refine ⟨(breakLine (d :: v')).1 ++ [c], ?_, he ▸ ⟨[], [c], by simp⟩⟩
      rw [hsplit, hA]
      simp [pySplitlines_nil]
termination_by v.length
decreasing_by subst_vars; exact breakLine_snd_lt _ (by simp)

/-! ### Stripping whitespace -/

theorem head_dropWhile_false {α : Type} (p : α → Bool) (l : List α) (c : α)
    (h : (l.dropWhile p).head? = some c) : p c = false := by
  induction l with
  | nil => simp [List.dropWhile] at h
  | cons a l ih =>
    by_cases ha : p a
    · rw [List.dropWhile_cons_of_pos ha] at h
      exact ih h
    · rw [List.dropWhile_cons_of_neg ha] at h
      have : a = c := by simpa using h
      subst this
      simpa using ha

theorem dropWhile_idem {α : Type} (p : α → Bool) (l : List α) :
    (l.dropWhile p).dropWhile p = l.dropWhile p := by
  cases hd : l.dropWhile p with
  | nil => rfl
  | cons a m =>
    have ha : p a = false := head_dropWhile_false p l a (by rw [hd]; rfl)
    rw [List.dropWhile_cons_of_neg (by simp [ha])]

theorem stripLeft_idem (v : List Char) : stripLeft (stripLeft v) = stripLeft v :=
  dropWhile_idem _ _

theorem stripRight_append_char (v : List Char) (c : Char) :
    stripRight (v ++ [c]) = if isPyWS c then stripRight v else v ++ [c] := by
  unfold stripRight
  rw [show (v ++ [c]).reverse = c :: v.reverse from by simp]
  by_cases hc : isPyWS c
  · rw [List.dropWhile_cons_of_pos hc, if_pos hc]
  · rw [List.dropWhile_cons_of_neg (by simp [hc]), if_neg hc]
    simp

theorem stripRight_idem (v : List Char) : stripRight (stripRight v) = stripRight v := by
  unfold stripRight
  rw [List.reverse_reverse, dropWhile_idem]

theorem stripRight_isPre (v : List Char) : stripRight v <+: v := by
  obtain ⟨t, ht⟩ := List.dropWhile_suffix (l := v.reverse) isPyWS
  exact ⟨t.reverse, by
    rw [show stripRight v = (v.reverse.dropWhile isPyWS).reverse from rfl,
        ← List.reverse_append, ht, List.reverse_reverse]⟩

theorem stripLeft_of_left_stripped (u : List Char) (h : stripLeft u = u) :
    stripLeft (stripRight u) = stripRight u := by
  cases u with
  | nil => rfl
  | cons c u' =>
    have hc : isPyWS c = false := by
      by_cases hcc : isPyWS c
      · exfalso
        have h1 : stripLeft (c :: u') = stripLeft u' := by
          unfold stripLeft
          rw [List.dropWhile_cons_of_pos hcc]
        rw [h1] at h
        have hle : (stripLeft u').length ≤ u'.length :=
          (List.dropWhile_suffix (l := u') isPyWS).length_le
        rw [h] at hle
        simp at hle
      · simpa using hcc
    cases hsr : stripRight (c :: u') with
    | nil => rfl
    | cons d w =>
      have hp : stripRight (c :: u') <+: c :: u' := stripRight_isPre _
      rw [hsr] at hp
      obtain ⟨t, ht⟩ := hp
      have hd : d = c := by
        have := congrArg List.head? ht
        simpa using this
      subst hd
      unfold stripLeft
      rw [List.dropWhile_cons_of_neg (by simp [hc])]

theorem pyStripChars_idem (v : List Char) :
    pyStripChars (pyStripChars v) = pyStripChars v := by
  unfold pyStripChars
  rw [stripLeft_of_left_stripped _ (stripLeft_idem v), stripRight_idem]

theorem stripRight_getLast_not_ws (v : List Char) (c : Char)
    (h : (stripRight v).getLast? = some c) : isPyWS c = false := by
  unfold stripRight at h
  rw [List.getLast?_reverse] at h
  exact head_dropWhile_false _ _ _ h

theorem pyStripChars_getLast_not_ws (v : List Char) (c : Char)
    (h : (pyStripChars v).getLast? = some c) : isPyWS c = false :=
  stripRight_getLast_not_ws _ _ h

theorem pyStripChars_isPre (v : List Char) : pyStripChars v <:+: v := by
  obtain ⟨t, ht⟩ := stripRight_isPre (stripLeft v)
  obtain ⟨u, hu⟩ := List.dropWhile_suffix (l := v) isPyWS
  refine ⟨u, t, ?_⟩
  rw [show pyStripChars v = stripRight (stripLeft v) from rfl, List.append_assoc, ht]
  simpa [stripLeft] using hu

/-! ### Lines of stripped text -/

theorem mem_pySplitlines_stripLeft (v l : List Char)
    (h : l ∈ pySplitlines (stripLeft v)) :
    ∃ x, x ∈ pySplitlines v ∧ l <:+: x := by
  induction v with
  | nil => exact absurd h (by simp [stripLeft, pySplitlines_nil])
  | cons c v' ih =>
    by_cases hc : isPyWS c
    · rw [show stripLeft (c :: v') = stripLeft v' from by
        unfold stripLeft; rw [List.dropWhile_cons_of_pos hc]] at h
      obtain ⟨x, hx, hlx⟩ := ih h
      obtain ⟨y, hy, hxy⟩ := mem_pySplitlines_cons_lift c v' x hx
      exact ⟨y, hy, hlx.trans hxy⟩
    · rw [show stripLeft (c :: v') = c :: v' from by
        unfold stripLeft; rw [List.dropWhile_cons_of_neg (by simpa using hc)]] at h
      exact ⟨l, h, List.infix_refl l⟩

theorem mem_pySplitlines_stripRight (v l : List Char)
    (h : l ∈ pySplitlines (stripRight v)) :
    ∃ x, x ∈ pySplitlines v ∧ l <:+: x := by
  induction v using List.reverseRecOn with
  | nil => exact absurd h (by simp [stripRight, pySplitlines_nil])
  | append_singleton v' c ih =>
    rw [stripRight_append_char] at h
    by_cases hc : isPyWS c
    · rw [if_pos hc] at h
      obtain ⟨x, hx, hlx⟩ := ih h
      obtain ⟨y, hy, hxy⟩ := mem_pySplitlines_append_char v' c x hx
      exact ⟨y, hy, hlx.trans hxy⟩
    · rw [if_neg hc] at h
      exact ⟨l, h, List.infix_refl l⟩

theorem mem_pySplitlines_strip (v l : List Char)
    (h : l ∈ pySplitlines (pyStripChars v)) :
    ∃ x, x ∈ pySplitlines v ∧ l <:+: x := by
  unfold pyStripChars at h
  obtain ⟨x, hx, hlx⟩ := mem_pySplitlines_stripRight (stripLeft v) l h
  obtain ⟨y, hy, hxy⟩ := mem_pySplitlines_stripLeft v x hx
  exact ⟨y, hy, hlx.trans hxy⟩

/-! ### Lines of sanitized text -/

theorem mem_pySplitlines_sanitizeChars (s l : List Char)
    (h : l ∈ pySplitlines (sanitizeChars s)) :
    ∃ x, x ∈ (pySplitlines s).filter keepLine ∧ l <:+: x := by
  unfold sanitizeChars at h
  obtain ⟨x, hx, hlx⟩ := mem_pySplitlines_strip _ l h
  have hnl : ∀ y ∈ (pySplitlines s).filter keepLine, nlFree y :=
    fun y hy => mem_pySplitlines_nlFree s y (List.mem_of_mem_filter hy)
  exact ⟨x, mem_joinNL_pySplitlines _ hnl x hx, hlx⟩

theorem mem_pySplitlines_sanitizeChars_src (s l : List Char)
    (h : l ∈ pySplitlines (sanitizeChars s)) :
    ∃ x, x ∈ pySplitlines s ∧ l <:+: x := by
  obtain ⟨x, hx, hlx⟩ := mem_pySplitlines_sanitizeChars s l h
  exact ⟨x, List.mem_of_mem_filter hx, hlx⟩

theorem keepLine_of_infix (l x : List Char) (hlx : l <:+: x) (hx : keepLine x = true) :
    keepLine l = true := by
  by_contra hcon
  have hl : lineHasMarker l = true := by
    simp only [keepLine, Bool.not_eq_true', Bool.not_eq_false] at hcon
    exact hcon
  obtain ⟨m, hm, hmd⟩ := List.any_eq_true.mp hl
  have hmx : lineHasMarker x = true :=
    List.any_eq_true.mpr ⟨m, hm, by
      simp only [decide_eq_true_eq] at hmd ⊢
      exact hmd.trans hlx⟩
  simp [keepLine, hmx] at hx

/-! ### Rejoining the lines of an already-normalized text -/

theorem joinNL_pySplitlines (t : List Char) (h1 : '\r' ∉ t)
    (h2 : t.getLast? ≠ some '\n') : joinNL (pySplitlines t) = t := by
  cases t with
  | nil => rfl
  | cons c cs =>
    rw [pySplitlines_cons]
    obtain ⟨sep, hsep, hcase⟩ := breakLine_struct (c :: cs)
    rcases hcase with ⟨hsepnil, hB2⟩ | hnl | hcr | hcrnl
    · rw [hB2, pySplitlines_nil,
          show joinNL [(breakLine (c :: cs)).1] = (breakLine (c :: cs)).1 from rfl]
      conv_rhs => rw [hsep]
      rw [hsepnil, hB2]
      simp
    · by_cases hB2nil : (breakLine (c :: cs)).2 = []
      · exfalso
        apply h2
        conv_lhs => rw [hsep]
        rw [hnl, hB2nil]
        simp
      · rw [joinNL_cons _ _ (pySplitlines_ne_nil _ hB2nil)]
        have hres : joinNL (pySplitlines (breakLine (c :: cs)).2) = (breakLine (c :: cs)).2 := by
          apply joinNL_pySplitlines
          · intro hmem
            apply h1
            rw [hsep]
            simp [hmem]
          · intro hlast
            apply h2
            rw [hsep, hnl, List.getLast?_append, List.getLast?_append, hlast]
            rfl
        rw [hres]
        conv_rhs => rw [hsep, hnl]
        simp
    · exfalso
      apply h1
      rw [hsep, hcr]
      simp
    · exfalso
      apply h1
      rw [hsep, hcrnl]
      simp
termination_by t.length
decreasing_by subst_vars; exact breakLine_snd_lt _ (by simp)

/-! ### Idempotence of the sanitizer core -/

theorem keepLine_sanitizeChars (s : List Char) :
    ∀ l ∈ pySplitlines (sanitizeChars s), keepLine l = true := by
  intro l hl
  obtain ⟨x, hx, hlx⟩ := mem_pySplitlines_sanitizeChars s l hl
  exact keepLine_of_infix l x hlx (List.of_mem_filter hx)

theorem cr_not_mem_sanitizeChars (s : List Char) : '\r' ∉ sanitizeChars s := by
  intro hmem
  have hnl : ∀ y ∈ (pySplitlines s).filter keepLine, nlFree y :=
    fun y hy => mem_pySplitlines_nlFree s y (List.mem_of_mem_filter hy)
  have hsub : '\r' ∈ joinNL ((pySplitlines s).filter keepLine) :=
    (pyStripChars_isPre _).subset hmem
  exact cr_not_mem_joinNL _ hnl hsub

theorem sanitizeChars_getLast_ne_nl (s : List Char) :
    (sanitizeChars s).getLast? ≠ some '\n' := by
  intro h
  unfold sanitizeChars at h
  have := pyStripChars_getLast_not_ws _ _ h
  simp [isPyWS] at this

theorem sanitizeChars_idem (s : List Char) :
    sanitizeChars (sanitizeChars s) = sanitizeChars s := by
  have hfil := List.filter_eq_self.mpr (keepLine_sanitizeChars s)
  have hjoin := joinNL_pySplitlines (sanitizeChars s) (cr_not_mem_sanitizeChars s)
    (sanitizeChars_getLast_ne_nl s)
  calc sanitizeChars (sanitizeChars s)
      = pyStripChars (joinNL ((pySplitlines (sanitizeChars s)).filter keepLine)) := rfl
    _ = pyStripChars (joinNL (pySplitlines (sanitizeChars s))) := by rw [hfil]
    _ = pyStripChars (sanitizeChars s) := by rw [hjoin]
    _ = sanitizeChars s := by
        show pyStripChars (pyStripChars (joinNL ((pySplitlines s).filter keepLine))) =
          sanitizeChars s
        rw [pyStripChars_idem]
        rfl

/-! ### Sorting by name -/

theorem pyOrdInsert_perm (x : String) (l : List String) :
    List.Perm (pyOrdInsert x l) (x :: l) := by
  induction l with
  | nil => rfl
  | cons y ys ih =>
    unfold pyOrdInsert
    by_cases h : x.data < y.data
    · rw [if_pos h]
    · rw [if_neg h]
      exact (List.Perm.cons y ih).trans (List.Perm.swap x y ys)

theorem pySortByName_perm (l : List String) : List.Perm (pySortByName l) l := by
  induction l with
  | nil => rfl
  | cons x xs ih =>
    unfold pySortByName
    exact (pyOrdInsert_perm x (pySortByName xs)).trans (List.Perm.cons x ih)

theorem pyOrdInsert_sorted (x : String) (l : List String)
    (h : List.Sorted (· ≤ ·) l) : List.Sorted (· ≤ ·) (pyOrdInsert x l) := by
  induction l with
  | nil => simp [pyOrdInsert]
  | cons y ys ih =>
    unfold pyOrdInsert
    obtain ⟨hy, hys⟩ := List.sorted_cons.mp h
    by_cases hlt : x.data < y.data
    · rw [if_pos hlt]
      have hxy : x ≤ y := le_of_lt (String.lt_iff_toList_lt.mpr hlt)
      rw [List.sorted_cons]
      refine ⟨?_, h⟩
      intro b hb
      rcases List.mem_cons.mp hb with hbx | hb'
      · exact hbx ▸ hxy
      · exact hxy.trans (hy b hb')
    · rw [if_neg hlt]
      have hyx : y ≤ x :=
        le_of_not_lt fun hc => hlt (String.lt_iff_toList_lt.mp hc)
      rw [List.sorted_cons]
      refine ⟨?_, ih hys⟩
      intro b hb
      rcases List.mem_cons.mp ((pyOrdInsert_perm x ys).mem_iff.mp hb) with hbx | hb'
      · exact hbx ▸ hyx
      · exact hy b hb'

theorem pySortByName_sorted (l : List String) :
    List.Sorted (· ≤ ·) (pySortByName l) := by
  induction l with
  | nil => simp [pySortByName]
  | cons x xs ih => exact pyOrdInsert_sorted x _ ih

theorem pySortByName_filter (q : String → Bool) (l : List String) :
    pySortByName (l.filter q) = (pySortByName l).filter q :=
  List.eq_of_perm_of_sorted
    ((pySortByName_perm (l.filter q)).trans
      (List.Perm.filter q (pySortByName_perm l)).symm)
    (pySortByName_sorted _)
    (List.Pairwise.sublist (List.filter_sublist _) (pySortByName_sorted l))

theorem filter_comm2 {α : Type} (p q : α → Bool) (l : List α) :
    (l.filter p).filter q = (l.filter q).filter p := by
  rw [List.filter_filter, List.filter_filter]
  congr 1
  funext a
  exact Bool.and_comm _ _

/-! ### Association-list facts -/

theorem lookup_map_self {β : Type} (g : String → β) (l : List String) (f : String)
    (hf : f ∈ l) :
    (l.map fun x => (x, g x)).lookup f = some (g f) := by
  induction l with
  | nil => exact absurd hf (by simp)
  | cons a l ih =>
    by_cases hfa : f = a
    · subst hfa
      simp [List.lookup]
    · have ha : (f == a) = false := by
        simp only [beq_eq_false_iff_ne, ne_eq]
        exact hfa
      rcases List.mem_cons.mp hf with h | h
      · exact absurd h hfa
      · simp only [List.map_cons, List.lookup, ha]
        exact ih h

theorem snd_mem_of_mem_enumFrom {α : Type} (l : List α) (p : Nat × α) :
    ∀ (n : Nat), p ∈ List.enumFrom n l → p.2 ∈ l := by
  induction l with
  | nil => intro n hp; simp [List.enumFrom] at hp
  | cons a l ih =>
    intro n hp
    rw [show List.enumFrom n (a :: l) = (n, a) :: List.enumFrom (n + 1) l from rfl] at hp
    rcases List.mem_cons.mp hp with h | h
    · subst h; simp
    · exact List.mem_cons_of_mem _ (ih (n + 1) h)

theorem map_pair_filter_fst {β : Type} (g : String → β) (f : String) (l : List String) :
    (l.filter fun x => x != f).map (fun x => (x, g x)) =
      (l.map fun x => (x, g x)).filter fun p => p.1 != f := by
  induction l with
  | nil => rfl
  | cons a l ih =>
    by_cases ha : a = f
    · subst ha
      simp [List.filter_cons, ih]
    · have hne : (a != f) = true := bne_iff_ne.mpr ha
      simp [List.filter_cons, hne, ih]

/-! ### Section projections -/

theorem mkSection_name (env : Env) (res : List (String × String)) (n : Nat)
    (f : String) : (mkSection env res n f).name = f := by
  unfold mkSection
  cases TASK_DESCRIPTIONS.lookup f <;> rfl

theorem mkSection_outputRendering (env : Env) (res : List (String × String)) (n : Nat)
    (f : String) :
    (mkSection env res n f).outputRendering = renderOutput (res.lookup f) := by
  unfold mkSection
  cases TASK_DESCRIPTIONS.lookup f <;> rfl

theorem mkSection_codeParagraphs (env : Env) (res : List (String × String)) (n : Nat)
    (f : String) :
    (mkSection env res n f).codeParagraphs =
      (add_formatted_code (read_file_content (env.readResult f)) 80).1 := by
  unfold mkSection
  cases TASK_DESCRIPTIONS.lookup f <;> rfl

theorem mkSection_codeNotice (env : Env) (res : List (String × String)) (n : Nat)
    (f : String) :
    (mkSection env res n f).codeNotice =
      (add_formatted_code (read_file_content (env.readResult f)) 80).2 := by
  unfold mkSection
  cases TASK_DESCRIPTIONS.lookup f <;> rfl

theorem mkSection_agree (env₁ env₂ : Env) (res₁ res₂ : List (String × String))
    (n : Nat) (f : String) (hres : res₁ = res₂) :
    (mkSection env₁ res₁ n f).name = (mkSection env₂ res₂ n f).name ∧
    (mkSection env₁ res₁ n f).heading = (mkSection env₂ res₂ n f).heading ∧
    (mkSection env₁ res₁ n f).overview = (mkSection env₂ res₂ n f).overview ∧
    (mkSection env₁ res₁ n f).outputRendering = (mkSection env₂ res₂ n f).outputRendering ∧
    (mkSection env₁ res₁ n f).conclusion = (mkSection env₂ res₂ n f).conclusion := by
  subst hres
  unfold mkSection
  cases TASK_DESCRIPTIONS.lookup f <;> simp

theorem mkSection_ext (env₁ env₂ : Env) (res₁ res₂ : List (String × String))
    (n : Nat) (f : String) (hres : res₁ = res₂)
    (hread : env₁.readResult f = env₂.readResult f) :
    mkSection env₁ res₁ n f = mkSection env₂ res₂ n f := by
  subst hres
  unfold mkSection
  rw [hread]

theorem forall₂_map_map {α β : Type} (R : β → β → Prop) (l : List α) (φ ψ : α → β)
    (h : ∀ x ∈ l, R (φ x) (ψ x)) : List.Forall₂ R (l.map φ) (l.map ψ) := by
  induction l with
  | nil => simp
  | cons a l ih =>
    exact List.Forall₂.cons (h a (by simp)) (ih fun x hx => h x (List.mem_cons_of_mem _ hx))

/-! ### Final helpers -/

theorem map_congr_on {α β : Type} (l : List α) (f g : α → β)
    (h : ∀ a ∈ l, f a = g a) : l.map f = l.map g := by
  induction l with
  | nil => rfl
  | cons a l ih =>
    simp only [List.map_cons, h a (by simp),
      ih fun x hx => h x (List.mem_cons_of_mem _ hx)]

theorem sanitize_output_empty (o : String)
    (ho : o.data = [] ∨ ∀ l ∈ pySplitlines o.data, lineHasMarker l = true) :
    sanitize_output o = "" := by
  unfold sanitize_output
  rcases ho with h | h
  · rw [if_pos (by simp [h])]
  · by_cases he : o.data.isEmpty
    · rw [if_pos he]
    · rw [if_neg he]
      apply String.ext
      show sanitizeChars o.data = _
      unfold sanitizeChars
      rw [show List.filter keepLine (pySplitlines o.data) = [] from
        List.filter_eq_nil_iff.mpr fun a ha => by simp [keepLine, h a ha]]
      rfl

theorem taskEntry_ne_empty (o : Option String) : taskEntry o ≠ "" := by
  cases o with
  | none => simp [taskEntry]
  | some out =>
    show (if sanitize_output out = "" then "(Без виводу)" else sanitize_output out) ≠ ""
    by_cases h : sanitize_output out = ""
    · rw [if_pos h]
      decide
    · rw [if_neg h]
      exact h

/-! ### Claim C1 -/

/-- Claim C1, counterexample to the claim as stated: on stdout `" x"` with
exit status 0 the coordinator returns `"x"` (Python `str.strip()` trims
both ends), not the text with only trailing whitespace trimmed. -/
theorem C1_counterexample :
    capture_output (RunOutcome.completed 0 " x") ≠
      coordinatorResultClaimed (RunOutcome.completed 0 " x") := by
  decide

/-- Claim C1 (amended): for every child-process outcome, `capture_output`
returns exactly the spec-side result: on zero exit status the captured
standard-output text with leading and trailing whitespace trimmed, and on
non-zero exit status, timeout expiry, or launch failure the explicit
"no result" signal `none`; being a total function of the outcome, it never
raises. -/
theorem C1_capture_output_spec (r : RunOutcome) :
    capture_output r = coordinatorResultSpec r := by
  cases r <;> rfl

/-! ### Claim C2 -/

/-- Claim C2, counterexample to the claim as stated: on input `"  3"` (no
marker anywhere, no blank line) the sanitizer returns `"3"`, while the
stated trim-blank-lines-only contract would return `"  3"` unchanged. -/
theorem C2_counterexample :
    sanitize_output "  3" ≠ sanitizeSpecClaimed "  3" := by
  decide

/-- Claim C2 (amended): `sanitize_output` splits the captured text into
lines, discards exactly those lines containing one of the five fixed marker
substrings, rejoins the remaining lines, and strips leading and trailing
whitespace from the result (which removes leading/trailing blank lines in
particular); sanitizing `"3\nError: bad input\n7\n"` yields `"3\n7"`. -/
theorem C2_sanitize_output_spec :
    (∀ s : String, sanitize_output s = sanitizeSpec s) ∧
      sanitize_output "3\nError: bad input\n7\n" = "3\n7" := by
  constructor
  · intro s
    unfold sanitize_output sanitizeSpec
    by_cases he : s.data.isEmpty
    · rw [if_pos he]
      have hd : s.data = [] := by simpa [List.isEmpty_iff] using he
      apply String.ext
      rw [hd]
      rfl
    · rw [if_neg he]
      apply String.ext
      show sanitizeChars s.data = _
      unfold sanitizeChars
      rfl
  · decide

/-! ### Claim C3 -/

/-- Claim C3, counterexample to the claim as stated: sanitizing `"  3"`
yields `"3"`, whose single output line `"3"` is not present verbatim among
the input's lines (the only input line is `"  3"`): the final strip alters
the boundary lines. -/
theorem C3_counterexample :
    ¬ (∀ l ∈ pySplitlines (sanitize_output "  3").data,
        l ∈ pySplitlines ("  3" : String).data) := by
  decide

/-- Claim C3 (amended): every line of the sanitizer's output is a
contiguous substring (infix) of a line present in the input — lines are
only removed, and the first/last kept lines may lose edge whitespace to the
final strip; no line is ever added. -/
theorem C3_sanitize_lines_infix (s : String) :
    ∀ l ∈ pySplitlines (sanitize_output s).data,
      ∃ x ∈ pySplitlines s.data, l <:+: x := by
  intro l hl
  unfold sanitize_output at hl
  by_cases he : s.data.isEmpty
  · rw [if_pos he] at hl
    exact absurd hl (by
      rw [show ("" : String).data = [] from rfl, pySplitlines_nil]
      simp)
  · rw [if_neg he] at hl
    obtain ⟨x, hx, hlx⟩ := mem_pySplitlines_sanitizeChars_src s.data l hl
    exact ⟨x, hx, hlx⟩

/-- Witness for C3 at a concrete input: the line `"a"` of the sanitized
`"a\nError\nb"` is an infix of an input line. -/
theorem C3_witness :
    ∃ x ∈ pySplitlines ("a\nError\nb" : String).data, ['a'] <:+: x :=
  C3_sanitize_lines_infix "a\nError\nb" ['a'] (by decide)

/-! ### Claim C4 -/

/-- Claim C4, counterexample to the claim as stated: no line of `"3\n"`
contains a marker, yet `sanitize_output "3\n" = "3" ≠ "3\n"` — the final
strip removes the trailing newline, so marker-free text is not always
returned unchanged. -/
theorem C4_counterexample :
    (∀ l ∈ pySplitlines ("3\n" : String).data, lineHasMarker l = false) ∧
      sanitize_output "3\n" ≠ "3\n" := by
  decide

/-- Claim C4 (amended): the sanitizer is idempotent — applying
`sanitize_output` to its own output returns that output unchanged, for
every input text.  (Marker-free text is returned verbatim only when it is
additionally strip-normalized, as the counterexample shows.) -/
theorem C4_sanitize_output_idem (s : String) :
    sanitize_output (sanitize_output s) = sanitize_output s := by
  unfold sanitize_output
  by_cases he : s.data.isEmpty
  · rw [if_pos he]
    rfl
  · rw [if_neg he]
    by_cases h2 : (String.mk (sanitizeChars s.data)).data.isEmpty
    · rw [if_pos h2]
      have hnil : sanitizeChars s.data = [] := by
        simpa [List.isEmpty_iff] using h2
      apply String.ext
      rw [hnil]
    · rw [if_neg h2]
      apply String.ext
      show sanitizeChars ((String.mk (sanitizeChars s.data)).data) = sanitizeChars s.data
      rw [show (String.mk (sanitizeChars s.data)).data = sanitizeChars s.data from rfl]
      exact sanitizeChars_idem s.data

/-! ### Claim C5 -/

/-- Claim C5: if the captured text of a discovered exercise is empty or all
of its lines are discarded by the denylist, `sanitize_output` returns the
empty result and the result-collection loop of `create_report` records the
explicit placeholder `"(Без виводу)"` for that exercise, never an empty
entry. -/
theorem C5_no_output_placeholder (env : Env) (f : String) (o : String)
    (hf : f ∈ get_python_files env)
    (hcap : capture_output (env.runOutcome f) = some o)
    (ho : o.data = [] ∨ ∀ l ∈ pySplitlines o.data, lineHasMarker l = true) :
    sanitize_output o = "" ∧
      (collectResults env).lookup f = some "(Без виводу)" := by
  have hempty : sanitize_output o = "" := sanitize_output_empty o ho
  refine ⟨hempty, ?_⟩
  unfold collectResults
  rw [lookup_map_self _ _ _ hf, hcap]
  simp [taskEntry, hempty]

/-- Witness for C5: in `demoEnv1` the exercise `a.py` prints only the
diagnostic line `"Error: bad"`, and its recorded entry is the placeholder. -/
theorem C5_witness :
    sanitize_output "Error: bad" = "" ∧
      (collectResults demoEnv1).lookup "a.py" = some "(Без виводу)" :=
  C5_no_output_placeholder demoEnv1 "a.py" "Error: bad"
    (by decide) (by decide) (by decide)

/-! ### Claim C6 -/

/-- Claim C6: discovery returns exactly the `.py` files of the directory
other than `Laba3_zvit.py`, in lexicographic (by-name) order, and the
assembled report has exactly one section per discovered file in that same
order. -/
theorem C6_discovery_and_sections (env : Env) :
    (∀ f : String, f ∈ get_python_files env ↔
        (f ∈ env.files ∧ (".py".data.isSuffixOf f.data) = true ∧ f ≠ "Laba3_zvit.py")) ∧
      List.Sorted (· ≤ ·) (get_python_files env) ∧
      (create_report_sections env).map (fun sec => sec.name) = get_python_files env := by
  refine ⟨?_, pySortByName_sorted _, ?_⟩
  · intro f
    unfold get_python_files
    rw [(pySortByName_perm _).mem_iff, List.mem_filter]
    unfold isExerciseFile
    constructor
    · rintro ⟨h1, h2⟩
      rw [Bool.and_eq_true] at h2
      exact ⟨h1, h2.1, bne_iff_ne.mp h2.2⟩
    · rintro ⟨h1, h2, h3⟩
      exact ⟨h1, by rw [Bool.and_eq_true]; exact ⟨h2, bne_iff_ne.mpr h3⟩⟩
  · unfold create_report_sections
    rw [List.map_map]
    show List.map (fun p => (mkSection env (collectResults env) p.1 p.2).name)
        (List.enumFrom 1 (get_python_files env)) = get_python_files env
    rw [map_congr_on _ _ Prod.snd
        (fun p _ => mkSection_name env (collectResults env) p.1 p.2)]
    exact List.enumFrom_map_snd _ _

/-! ### Claim C7 -/

/-- Claim C7: failures are isolated per exercise.  If a discovered exercise
`f` fails (its capture yields the "no result" signal), the collection loop
still records, for every other exercise, exactly the entry it would record
if `f` were not in the directory at all, and `f` itself is recorded only as
the `"(Без виводу)"` placeholder — the failure is never propagated. -/
theorem C7_failure_isolation (env : Env) (f : String)
    (hfail : capture_output (env.runOutcome f) = none) :
    collectResults { env with files := env.files.filter fun g => g != f } =
        ((collectResults env).filter fun p => p.1 != f) ∧
      (f ∈ get_python_files env →
        (collectResults env).lookup f = some "(Без виводу)") := by
  constructor
  · show (pySortByName ((env.files.filter fun g => g != f).filter isExerciseFile)).map
        (fun x => (x, taskEntry (capture_output (env.runOutcome x)))) = _
    rw [filter_comm2, pySortByName_filter, map_pair_filter_fst]
    rfl
  · intro hf
    unfold collectResults
    rw [lookup_map_self _ _ _ hf, hfail]
    rfl

/-- Witness for C7: in `demoEnv2` the exercise `a.py` times out; removing
it from the directory leaves `b.py`'s recorded result unchanged, and
`a.py`'s entry is the placeholder. -/
theorem C7_witness :
    (collectResults { demoEnv2 with files := demoEnv2.files.filter fun g => g != "a.py" } =
        ((collectResults demoEnv2).filter fun p => p.1 != "a.py")) ∧
      (collectResults demoEnv2).lookup "a.py" = some "(Без виводу)" := by
  have h := C7_failure_isolation demoEnv2 "a.py" (by decide)
  exact ⟨h.1, h.2 (by decide)⟩

/-! ### Claim C8 -/

/-- Claim C8, counterexample to the claim as stated: for the one-line text
`" "` (at most 80 lines) the emitted paragraph is `""`, not the line `" "`
itself — `add_formatted_code` normalizes whitespace-only lines to empty
paragraphs, so not every line is emitted verbatim. -/
theorem C8_counterexample :
    (add_formatted_code " " 80).1 ≠ (pySplit '\n' (" " : String).data).map String.mk := by
  decide

/-- Claim C8 (amended): for every source text rendered with
`max_lines = 80`: if it has at most 80 lines, one paragraph per line is
emitted (whitespace-only lines as empty paragraphs) and no omission notice
is added; if it has more, exactly the first 80 lines are emitted the same
way, followed by a notice naming exactly `total - 80` omitted lines. -/
theorem C8_add_formatted_code_cap (code : String) :
    ((pySplit '\n' code.data).length ≤ 80 →
      (add_formatted_code code 80).1 = (pySplit '\n' code.data).map paraText ∧
        (add_formatted_code code 80).2 = none) ∧
    (80 < (pySplit '\n' code.data).length →
      (add_formatted_code code 80).1 = ((pySplit '\n' code.data).take 80).map paraText ∧
        (add_formatted_code code 80).2 =
          some ("... (залишилось " ++ toString ((pySplit '\n' code.data).length - 80)
            ++ " рядків)")) := by
  constructor
  · intro hle
    refine ⟨?_, ?_⟩
    · show ((pySplit '\n' code.data).take 80).map paraText = _
      rw [List.take_of_length_le hle]
    · show (if 80 < (pySplit '\n' code.data).length then _ else none) = none
      rw [if_neg (Nat.not_lt.mpr hle)]
  · intro hgt
    refine ⟨rfl, ?_⟩
    show (if 80 < (pySplit '\n' code.data).length then
        some ("... (залишилось " ++ toString ((pySplit '\n' code.data).length - 80)
          ++ " рядків)") else none) = _
    rw [if_pos hgt]

/-- Witness for C8 at the three-line text `"a\n  \nb"`: all three lines fit
under the cap, the blank middle line is emitted as an empty paragraph, and
no omission notice is produced. -/
theorem C8_witness :
    (pySplit '\n' ("a\n  \nb" : String).data).length ≤ 80 ∧
      (add_formatted_code "a\n  \nb" 80).1 =
        (pySplit '\n' ("a\n  \nb" : String).data).map paraText ∧
      (add_formatted_code "a\n  \nb" 80).2 = none :=
  ⟨by decide, ((C8_add_formatted_code_cap "a\n  \nb").1 (by decide)).1,
    ((C8_add_formatted_code_cap "a\n  \nb").1 (by decide)).2⟩

/-! ### Claim C9 -/

/-- Claim C9: an unreadable source file never aborts the run.  The reader
`read_file_content` is total and turns a read error into the explicit
placeholder string; that (and only that) text feeds a section's source
listing, and changing what reading one exercise's file returns leaves the
names, headings, overviews, execution outputs and conclusions of all
sections — and every other exercise's section entirely — unchanged. -/
theorem C9_read_error_isolated :
    (∀ e : String, read_file_content (Except.error e) = "Помилка читання файлу: " ++ e) ∧
    (∀ (env : Env) (f : String) (r : Except String String),
      List.Forall₂ (fun s₁ s₂ =>
          s₁.name = s₂.name ∧ s₁.heading = s₂.heading ∧ s₁.overview = s₂.overview ∧
          s₁.outputRendering = s₂.outputRendering ∧ s₁.conclusion = s₂.conclusion ∧
          (s₁.name ≠ f → s₁ = s₂))
        (create_report_sections env)
        (create_report_sections
          { env with readResult := fun g => if g = f then r else env.readResult g })) ∧
    (∀ (env : Env), ∀ sec ∈ create_report_sections env,
      sec.codeParagraphs =
          (add_formatted_code (read_file_content (env.readResult sec.name)) 80).1 ∧
        sec.codeNotice =
          (add_formatted_code (read_file_content (env.readResult sec.name)) 80).2) := by
  refine ⟨fun e => rfl, ?_, ?_⟩
  · intro env f r
    show List.Forall₂ _
      ((List.enumFrom 1 (get_python_files env)).map
        (fun p => mkSection env (collectResults env) p.1 p.2))
      ((List.enumFrom 1 (get_python_files env)).map
        (fun p => mkSection { env with readResult := fun g => if g = f then r else env.readResult g }
          (collectResults { env with readResult := fun g => if g = f then r else env.readResult g })
          p.1 p.2))
    apply forall₂_map_map
    intro p hp
    by_cases hpf : p.2 = f
    · obtain ⟨a1, a2, a3, a4, a5⟩ := mkSection_agree env
        { env with readResult := fun g => if g = f then r else env.readResult g }
        (collectResults env) _ p.1 p.2 rfl
      refine ⟨a1, a2, a3, a4, a5, ?_⟩
      intro hne
      exact absurd (by rw [mkSection_name, hpf]) hne
    · have hread : env.readResult p.2 =
          ({ env with readResult := fun g => if g = f then r else env.readResult g } : Env).readResult p.2 := by
        show env.readResult p.2 = if p.2 = f then r else env.readResult p.2
        rw [if_neg hpf]
      have heq := mkSection_ext env
        { env with readResult := fun g => if g = f then r else env.readResult g }
        (collectResults env)
        (collectResults
          { env with readResult := fun g => if g = f then r else env.readResult g })
        p.1 p.2 rfl hread
      exact ⟨by rw [heq], by rw [heq], by rw [heq], by rw [heq], by rw [heq], fun _ => heq⟩
  · intro env sec hsec
    obtain ⟨p, hp, hps⟩ := List.mem_map.mp hsec
    rw [← hps, mkSection_name, mkSection_codeParagraphs, mkSection_codeNotice]
    exact ⟨rfl, rfl⟩

/-- Witness for C9: the single section of `demoEnv1`'s report (where every
read fails) embeds exactly the formatted placeholder text in its source
listing slot. -/
theorem C9_witness :
    demoSec1.codeParagraphs =
        (add_formatted_code (read_file_content (demoEnv1.readResult demoSec1.name)) 80).1 ∧
      demoSec1.codeNotice =
        (add_formatted_code (read_file_content (demoEnv1.readResult demoSec1.name)) 80).2 :=
  C9_read_error_isolated.2.2 demoEnv1 demoSec1 (by decide)

/-! ### Claim C10 -/

/-- Claim C10 (implicit invariant): after the result-collection loop,
`task_results` holds a non-empty string for every discovered file (either a
non-empty sanitized output or the `"(Без виводу)"` placeholder), so the
section-writing loop's lookup never misses and the "not executed"
rendering branch (`⊘ Скрипт аналізується як код без автоматичного
виконання`) is unreachable. -/
theorem C10_results_total (env : Env) :
    (∀ f ∈ get_python_files env,
        ∃ v, (collectResults env).lookup f = some v ∧ v ≠ "") ∧
      (∀ sec ∈ create_report_sections env,
        sec.outputRendering ≠ OutputRendering.notExecuted) := by
  constructor
  · intro f hf
    refine ⟨taskEntry (capture_output (env.runOutcome f)), ?_, taskEntry_ne_empty _⟩
    unfold collectResults
    exact lookup_map_self _ _ _ hf
  · intro sec hsec
    obtain ⟨p, hp, hps⟩ := List.mem_map.mp hsec
    rw [← hps, mkSection_outputRendering]
    have hf : p.2 ∈ get_python_files env := snd_mem_of_mem_enumFrom _ p 1 hp
    have hlk : (collectResults env).lookup p.2 =
        some (taskEntry (capture_output (env.runOutcome p.2))) := by
      unfold collectResults
      exact lookup_map_self _ _ _ hf
    rw [hlk]
    simp [renderOutput]

/-- Witness for C10: in `demoEnv1`, the discovered `a.py` has a non-empty
recorded entry and its section is rendered through the executed branch. -/
theorem C10_witness :
    (∃ v, (collectResults demoEnv1).lookup "a.py" = some v ∧ v ≠ "") ∧
      demoSec1.outputRendering ≠ OutputRendering.notExecuted :=
  ⟨(C10_results_total demoEnv1).1 "a.py" (by decide),
    (C10_results_total demoEnv1).2 demoSec1 (by decide)⟩
